import Mathlib

/-!
Shallow embedding of the pre-seminary workout page (`src/app/page.tsx`):
the session timing engine (`useIntervalTimer`), the session recorder
(`finish`), the progress analyzer (`computeImprovement`), the log store
(`addLog`) and the plan-saving boundary (`savePlan`).

JavaScript numbers are modelled as `ℚ` (the values the program actually
produces on the inputs of interest are rationals); a JS expression that can
produce a non-finite value (NaN / Infinity, from division by zero) is
modelled as `Option`, with `none` for the non-finite outcome.  `Math.round`
is `round : ℚ → ℤ` (both round half toward positive infinity).  `Math.min`
is `min`.  JS arrays are `List`, `undefined` is `Option.none`.
-/

/-- `Block.intensity` enum: `"low" | "moderate" | "high"`. -/
inductive Intensity
  | low
  | moderate
  | high
  deriving Repr, DecidableEq

/-- `Block.metric.kind` enum: `"reps" | "time_s" | "distance_m" | "custom"`. -/
inductive MetricKind
  | reps
  | time_s
  | distance_m
  | custom
  deriving Repr, DecidableEq

/-- The optional `metric` record on a `Block`. -/
structure BlockMetric where
  kind : MetricKind
  label : Option String
  higherIsBetter : Option Bool
  deriving Repr, DecidableEq

/-- The `Block` type of the source (one timed segment of a plan). -/
structure Block where
  id : String
  name : String
  minutes : ℚ
  intensity : Intensity
  metric : Option BlockMetric
  target : Option ℚ
  notes : Option String
  deriving Repr, DecidableEq

/-- The `WorkoutPlan` type of the source. -/
structure WorkoutPlan where
  id : String
  title : String
  tags : List String
  blocks : List Block
  author : String
  deriving Repr, DecidableEq

/-- One entry of `SessionLog.metrics`: `{ blockId, value }`. -/
structure MetricEntry where
  blockId : String
  value : ℚ
  deriving Repr, DecidableEq

/-- The `SessionLog` type of the source. -/
structure SessionLog where
  id : String
  userId : Option String
  planId : String
  date : String
  duration : ℤ
  rpe : ℤ
  notes : String
  metrics : List MetricEntry
  deriving Repr, DecidableEq

/-- `useIntervalTimer`: `totalMinutes = blocks.reduce((a, b) => a + (b.minutes || 0), 0)`.
(`b.minutes || 0` only differs from `b.minutes` on the non-finite NaN, which
`ℚ` does not contain, and on `0` itself, where both give `0`.) -/
def totalMinutes (blocks : List Block) : ℚ :=
  blocks.foldl (fun a b => a + b.minutes) 0

/-- `useIntervalTimer`: `totalSec = totalMinutes * 60`. -/
def totalSec (blocks : List Block) : ℚ :=
  totalMinutes blocks * 60

/-- The state update performed by one animation-frame callback while running:
`setElapsedSec((s) => Math.min(s + dt, totalSec))` where
`dt = (t - lastTick.current) / 1000`.  Note the source clamps only from
above; there is no lower clamp on `dt` or on the sum. -/
def tick (s dt totalSecs : ℚ) : ℚ :=
  min (s + dt) totalSecs

/-- `percent = Math.round((elapsedSec / totalSec) * 100)`.
When `totalSec = 0` the JS division produces NaN (for `elapsedSec = 0`) or
Infinity, and `Math.round` of those is not a finite number; that outcome is
modelled as `none`. -/
def percent (elapsedSec totalSecs : ℚ) : Option ℤ :=
  if totalSecs = 0 then none else some (round (elapsedSec / totalSecs * 100))

/-- One entry of the `cumulative` array of `useIntervalTimer`:
`{ id, start, end, name, intensity }` (the source's `end` field is `ends`
here, `end` being reserved in Lean). -/
structure CumEntry where
  id : String
  start : ℚ
  ends : ℚ
  name : String
  intensity : Intensity
  deriving Repr, DecidableEq

/-- The loop body of `cumulative`, with the running minute accumulator `acc`
made explicit: for each block, `start = acc * 60; acc += b.minutes;
end = acc * 60`. -/
def cumulativeAux (acc : ℚ) : List Block → List CumEntry
  | [] => []
  | b :: bs =>
    let s := acc * 60
    let acc2 := acc + b.minutes
    let e := acc2 * 60
    ⟨b.id, s, e, b.name, b.intensity⟩ :: cumulativeAux acc2 bs

/-- `useIntervalTimer`'s `cumulative` array (accumulator starts at 0). -/
def cumulative (blocks : List Block) : List CumEntry :=
  cumulativeAux 0 blocks

/-- `current = cumulative.find((c) => elapsedSec >= c.start && elapsedSec < c.end)
|| cumulative[cumulative.length - 1]`.  `find` returning `undefined` falls
back to the last element; on an empty array that is also `undefined`. -/
def current (blocks : List Block) (elapsedSec : ℚ) : Option CumEntry :=
  let cum := cumulative blocks
  match cum.find? (fun c => decide (c.start ≤ elapsedSec ∧ elapsedSec < c.ends)) with
  | some c => some c
  | none => cum.getLast?

/-- Result record of `computeImprovement`:
`{ baseline?: number; latest?: number; percent?: number }`. -/
structure Improvement where
  baseline : Option ℚ
  latest : Option ℚ
  percent : Option ℚ
  deriving Repr, DecidableEq

/-- The body of `computeImprovement` after the series has been extracted:
`if (series.length < 2) return {}; const baseline = series[0];
const latest = series[series.length - 1];
if (!baseline || baseline === 0) return { baseline, latest };
const percent = ((latest - baseline) / baseline) * 100;
return { baseline, latest, percent };`
(for a number, `!baseline` coincides with `baseline === 0` over `ℚ`). -/
def improvementOfSeries (series : List ℚ) : Improvement :=
  if series.length < 2 then ⟨none, none, none⟩
  else
    let baseline := series.headD 0
    let latest := series.getLastD 0
    if baseline = 0 then ⟨some baseline, some latest, none⟩
    else ⟨some baseline, some latest, some ((latest - baseline) / baseline * 100)⟩

/-- `myLogs = logs.filter((l) => l.planId === selected?.id)`. -/
def myLogs (logs : List SessionLog) (selected : WorkoutPlan) : List SessionLog :=
  logs.filter (fun l => l.planId == selected.id)

/-- The series extraction of `computeImprovement`:
`myLogs.map((l) => l.metrics.find((m) => m.blockId === blockId)?.value)
.filter((v): v is number => typeof v === "number")`
(mapping to an `Option` and dropping the `none`s). -/
def qualifyingSeries (logs : List SessionLog) (selected : WorkoutPlan)
    (blockId : String) : List ℚ :=
  ((myLogs logs selected).map
    (fun l => (l.metrics.find? (fun m => m.blockId == blockId)).map MetricEntry.value)).filterMap id

/-- `computeImprovement(blockId)` as called in `StudentDashboard`, reading
the log list and the selected plan it closes over. -/
def computeImprovement (logs : List SessionLog) (selected : WorkoutPlan)
    (blockId : String) : Improvement :=
  improvementOfSeries (qualifyingSeries logs selected blockId)

/-- `StudentDashboard.finish`: `minutesDone = Math.round(elapsedSec / 60)`;
`metrics = Object.entries(metricInputs).map(([blockId, value]) =>
({ blockId, value: Number(value) || 0 }))`; the log's `userId` is
`studentName || undefined`.  A metric-input value is `Option ℚ`, `none`
modelling a non-numeric (NaN) stored value; `Number(value) || 0` sends it
(and `0` itself) to `0`. -/
def finish (elapsedSec : ℚ) (metricInputs : List (String × Option ℚ))
    (logId : String) (studentName : String) (planId : String) (date : String)
    (rpe : ℤ) (notes : String) : SessionLog :=
  let minutesDone := round (elapsedSec / 60)
  let metrics := metricInputs.map (fun p => ⟨p.1, p.2.getD 0⟩)
  { id := logId
    userId := if studentName = "" then none else some studentName
    planId := planId
    date := date
    duration := minutesDone
    rpe := rpe
    notes := notes
    metrics := metrics }

/-- `addLog = (log) => setLogs([log, ...logs].slice(0, 500))`: prepend the
new log (the store is most-recent-first) and keep the first 500. -/
def addLog (log : SessionLog) (logs : List SessionLog) : List SessionLog :=
  (log :: logs).take 500

/-- `InstructorDashboard.savePlan`: returns the new plan list and the new
editing state.  `if (!editing) return;` leaves both unchanged; a block-minute
sum different from 45 alerts and returns with the plan list unchanged;
otherwise the edited plan replaces its namesake or is prepended. -/
def savePlan (editing : Option WorkoutPlan) (plans : List WorkoutPlan) :
    List WorkoutPlan × Option WorkoutPlan :=
  match editing with
  | none => (plans, none)
  | some ed =>
    let sum := ed.blocks.foldl (fun a b => a + b.minutes) 0
    if sum ≠ 45 then (plans, some ed)
    else
      let exists_ := plans.any (fun p => p.id == ed.id)
      let next := if exists_ then plans.map (fun p => if p.id == ed.id then ed else p)
        else ed :: plans
      (next, none)

/-- Replace the `higherIsBetter` flag on a block's metric definition (when
the block has one), leaving every other field unchanged. -/
def flipHigherIsBetter (b : Block) (hib : Option Bool) : Block :=
  { b with metric := b.metric.map (fun m => { m with higherIsBetter := hib }) }

/-- Replace the `higherIsBetter` flag on the metric definition of the plan's
`i`-th block, leaving everything else unchanged. -/
def planFlipHigherIsBetter (p : WorkoutPlan) (i : ℕ) (hib : Option Bool) : WorkoutPlan :=
  { p with blocks := p.blocks.mapIdx (fun j b => if j = i then flipHigherIsBetter b hib else b) }

/-- The spec's example plan: blocks of 10, 30 and 5 minutes (total 2700 s). -/
def exampleBlocks : List Block :=
  [⟨"warmup", "Warmup", 10, .low, none, none, none⟩,
   ⟨"main", "Main Set", 30, .moderate, none, none, none⟩,
   ⟨"cooldown", "Cooldown", 5, .low, none, none, none⟩]

/-- A two-block list ending in a zero-duration block. -/
def blocksWithZeroTail : List Block :=
  [⟨"b1", "Body", 10, .moderate, none, none, none⟩,
   ⟨"bz", "Zero", 0, .low, none, none, none⟩]

/-- A concrete plan to query improvements against. -/
def planA : WorkoutPlan := ⟨"planA", "Plan A", [], exampleBlocks, "Instructor Team"⟩

/-- A plan whose block minutes sum to 40, not 45. -/
def planShort : WorkoutPlan :=
  ⟨"planShort", "Short", [],
    [⟨"s1", "Only", 40, .moderate, none, none, none⟩], "You"⟩

/-- The chronologically first log for `planA`: metric value 10 on block `"main"`. -/
def logOld : SessionLog :=
  ⟨"L1", none, "planA", "2026-01-01", 45, 5, "", [⟨"main", 10⟩]⟩

/-- A later log for `planA`: metric value 15 on block `"main"`. -/
def logNew : SessionLog :=
  ⟨"L2", none, "planA", "2026-01-02", 45, 5, "", [⟨"main", 15⟩]⟩

/-- A filler log (to build a full 500-entry store). -/
def fillerLog : SessionLog :=
  ⟨"F", none, "planA", "2026-01-01", 45, 5, "", []⟩

/-- C2 counterexample: in the engine state of a zero-length plan
(`elapsedSec = 0`, `totalSec = 0`), `percent` is the JS value
`Math.round(0 / 0 * 100) = NaN` (modelled `none`), not the number 0 the
claim requires. -/
theorem percent_zero_total_cex : percent 0 0 = none ∧ percent 0 0 ≠ some 0 := by
  constructor
  · simp [percent]
  · simp [percent]

/-- C2 (amended): for every engine state with `totalSeconds ≠ 0`, `percent`
returns `round(100 * elapsedSeconds / totalSeconds)`; when
`totalSeconds = 0` it returns no number at all (the JS expression is NaN),
rather than 0. -/
theorem percent_spec (e t : ℚ) (h : t ≠ 0) :
    percent e t = some (round (100 * e / t)) ∧ percent e 0 = none := by
  constructor
  · simp only [percent, if_neg h]
    congr 1
    ring_nf
  · simp [percent]

/-- Witness for `percent_spec` at `elapsedSec = 1500`, `totalSec = 2700`. -/
theorem percent_spec_witness :
    (2700 : ℚ) ≠ 0 ∧
      (percent 1500 2700 = some (round ((100 : ℚ) * 1500 / 2700)) ∧ percent 1500 0 = none) :=
  ⟨by norm_num, percent_spec 1500 2700 (by norm_num)⟩

/-- C3 counterexample: a tick with negative delta `-1` from elapsed 0
(total 2700) yields `-1`: the code does not clamp the delta at 0, so the
elapsed time rewinds below 0, while the claim's formula
`min(elapsed + max(delta, 0), total)` would give 0. -/
theorem tick_negative_delta_cex :
    tick 0 (-1) 2700 = -1 ∧ tick 0 (-1) 2700 < 0 ∧
      tick 0 (-1) 2700 ≠ min (0 + max (-1 : ℚ) 0) 2700 := by
  refine ⟨?_, ?_, ?_⟩ <;> norm_num [tick]

/-- C3 (amended): for every engine state with `0 ≤ elapsedSeconds ≤
totalSeconds` and every non-negative clock delta (what the
animation-frame clock supplies), a tick sets the elapsed time to
`min(elapsedSeconds + max(deltaSeconds, 0), totalSeconds)`; it never exceeds
`totalSeconds`, never goes negative and never rewinds.  (A negative delta is
not clamped by the code itself: see the counterexample.) -/
theorem tick_spec (s dt t : ℚ) (h0 : 0 ≤ s) (h1 : s ≤ t) (h2 : 0 ≤ dt) :
    tick s dt t = min (s + max dt 0) t ∧
      0 ≤ tick s dt t ∧ s ≤ tick s dt t ∧ tick s dt t ≤ t := by
  have hmax : max dt 0 = dt := max_eq_left h2
  have hs : s ≤ tick s dt t := le_min (by linarith) h1
  exact ⟨by rw [tick, hmax], le_trans h0 hs, hs, min_le_right _ _⟩

/-- Witness for `tick_spec` at elapsed 100, delta 1, total 2700. -/
theorem tick_spec_witness :
    ((0 : ℚ) ≤ 100 ∧ (100 : ℚ) ≤ 2700 ∧ (0 : ℚ) ≤ 1) ∧
      (tick 100 1 2700 = min (100 + max (1 : ℚ) 0) 2700 ∧
        0 ≤ tick 100 1 2700 ∧ 100 ≤ tick 100 1 2700 ∧ tick 100 1 2700 ≤ 2700) :=
  ⟨⟨by norm_num, by norm_num, by norm_num⟩,
    tick_spec 100 1 2700 (by norm_num) (by norm_num) (by norm_num)⟩

/-- C7: the store after `addLog` never holds more than 500 logs, and
appending to a full 500-entry store keeps the new log plus all but the
oldest (last, since the store is most-recent-first) existing entry. -/
theorem addLog_cap (log : SessionLog) (logs : List SessionLog) :
    (addLog log logs).length ≤ 500 ∧
      (logs.length = 500 → addLog log logs = log :: logs.dropLast) := by
  constructor
  · simp [addLog]
  · intro h
    have h500 : (500 : ℕ) = 499 + 1 := by norm_num
    rw [addLog, h500, List.take_succ_cons, List.dropLast_eq_take, h]

/-- Witness for `addLog_cap` on a concrete full store of 500 entries. -/
theorem addLog_cap_witness :
    (List.replicate 500 fillerLog).length = 500 ∧
      (addLog logNew (List.replicate 500 fillerLog)).length ≤ 500 ∧
      addLog logNew (List.replicate 500 fillerLog) =
        logNew :: (List.replicate 500 fillerLog).dropLast :=
  ⟨by rw [List.length_replicate], (addLog_cap logNew (List.replicate 500 fillerLog)).1,
    (addLog_cap logNew (List.replicate 500 fillerLog)).2 (by rw [List.length_replicate])⟩

/-- C8: saving an edited plan whose block minutes do not sum to 45 leaves
the stored plan list unchanged (and the editor still open on that plan:
only the alert fires). -/
theorem savePlan_rejects (ed : WorkoutPlan) (plans : List WorkoutPlan)
    (h : totalMinutes ed.blocks ≠ 45) :
    (savePlan (some ed) plans).1 = plans ∧ (savePlan (some ed) plans).2 = some ed := by
  rw [savePlan]
  simp only [totalMinutes] at h
  rw [if_pos h]
  exact ⟨rfl, rfl⟩

/-- Witness for `savePlan_rejects`: `planShort` (40 minutes) against a
one-plan store. -/
theorem savePlan_rejects_witness :
    totalMinutes planShort.blocks ≠ 45 ∧
      (savePlan (some planShort) [planA]).1 = [planA] ∧
      (savePlan (some planShort) [planA]).2 = some planShort :=
  ⟨by norm_num [totalMinutes, planShort], (savePlan_rejects planShort [planA]
      (by norm_num [totalMinutes, planShort])).1,
    (savePlan_rejects planShort [planA] (by norm_num [totalMinutes, planShort])).2⟩

/-- C9: the improvement computation is invariant under changing the
`higherIsBetter` flag anywhere it lives — on the metric definition of any
block of the selected plan and on the block whose id is queried: the flag
is never consulted. -/
theorem improvement_ignores_higherIsBetter (logs : List SessionLog)
    (p : WorkoutPlan) (b : Block) (i : ℕ) (hib hib2 : Option Bool) :
    computeImprovement logs (planFlipHigherIsBetter p i hib) (flipHigherIsBetter b hib2).id =
      computeImprovement logs p b.id := rfl

/-- `improvementOfSeries` with its local constants inlined. -/
theorem improvementOfSeries_def (series : List ℚ) :
    improvementOfSeries series =
      if series.length < 2 then ⟨none, none, none⟩
      else if series.headD 0 = 0 then
        ⟨some (series.headD 0), some (series.getLastD 0), none⟩
      else
        ⟨some (series.headD 0), some (series.getLastD 0),
          some ((series.getLastD 0 - series.headD 0) / series.headD 0 * 100)⟩ := rfl

/-- C5: the improvement result on a series of qualifying values: empty when
fewer than two values exist; `baseline` = first, `latest` = last; `percent`
omitted when the baseline is 0 and otherwise
`100 * (latest - baseline) / baseline`; and the spec's two examples. -/
theorem improvementOfSeries_spec (series : List ℚ) :
    (series.length < 2 → improvementOfSeries series = ⟨none, none, none⟩) ∧
    (2 ≤ series.length →
      (series.headD 0 = 0 →
        improvementOfSeries series =
          ⟨some (series.headD 0), some (series.getLastD 0), none⟩) ∧
      (series.headD 0 ≠ 0 →
        improvementOfSeries series =
          ⟨some (series.headD 0), some (series.getLastD 0),
            some (100 * (series.getLastD 0 - series.headD 0) / series.headD 0)⟩)) ∧
    improvementOfSeries [10, 15] = ⟨some 10, some 15, some 50⟩ ∧
    improvementOfSeries [0, 5] = ⟨some 0, some 5, none⟩ := by
  refine ⟨?_, ?_, ?_, ?_⟩
  · intro h
    rw [improvementOfSeries, if_pos h]
  · intro h
    have hnot : ¬ series.length < 2 := not_lt.mpr h
    constructor
    · intro hz
      rw [improvementOfSeries_def, if_neg hnot, if_pos hz]
    · intro hz
      rw [improvementOfSeries_def, if_neg hnot, if_neg hz]
      simp only [Improvement.mk.injEq, Option.some.injEq]
      exact ⟨trivial, trivial, by ring⟩
  · norm_num [improvementOfSeries]
  · norm_num [improvementOfSeries]

/-- Witness for `improvementOfSeries_spec`: the length-2 hypotheses
discharged on the concrete series `[10, 15]`. -/
theorem improvementOfSeries_spec_witness :
    (2 ≤ ([(10 : ℚ), 15]).length) ∧
      improvementOfSeries [(10 : ℚ), 15] =
        ⟨some (([(10 : ℚ), 15]).headD 0), some (([(10 : ℚ), 15]).getLastD 0),
          some (100 * (([(10 : ℚ), 15]).getLastD 0 - ([(10 : ℚ), 15]).headD 0) /
            ([(10 : ℚ), 15]).headD 0)⟩ :=
  ⟨by norm_num,
    ((improvementOfSeries_spec [10, 15]).2.1 (by norm_num)).2 (by norm_num)⟩

/-- C6: `finish` records `durationMinutes = round(elapsedSeconds / 60)` and
a metric entry for each metric input in order, with a missing / non-numeric
value coerced to 0 (the construction is total: it never fails), and
`elapsedSeconds = 1200` gives `durationMinutes = 20`. -/
theorem finish_spec (e : ℚ) (inputs : List (String × Option ℚ))
    (logId studentName pid date : String) (rpe : ℤ) (notes : String) :
    (finish e inputs logId studentName pid date rpe notes).duration = round (e / 60) ∧
    (finish e inputs logId studentName pid date rpe notes).metrics.length = inputs.length ∧
    (∀ i, i < inputs.length →
      (finish e inputs logId studentName pid date rpe notes).metrics.getD i ⟨"", 0⟩ =
        ⟨(inputs.getD i ("", none)).1, (inputs.getD i ("", none)).2.getD 0⟩) ∧
    (finish 1200 inputs logId studentName pid date rpe notes).duration = 20 := by
  refine ⟨rfl, by simp [finish], ?_, ?_⟩
  · intro i hi
    simp only [finish]
    rw [List.getD_eq_getElem?_getD, List.getD_eq_getElem?_getD, List.getElem?_map,
      List.getElem?_eq_getElem hi]
    rfl
  · show round ((1200 : ℚ) / 60) = 20
    norm_num [round_eq]

/-- Witness for `finish_spec` on concrete inputs, including a `none`
(non-numeric) metric value coerced to 0. -/
theorem finish_spec_witness :
    (1 < ([("a", some (7 : ℚ)), ("b", none)]).length) ∧
      (finish 1200 [("a", some (7 : ℚ)), ("b", none)] "id1" "Jordan" "p1" "d1" 5 "n").metrics.getD 1
          ⟨"", 0⟩ = ⟨"b", 0⟩ ∧
      (finish 1200 [("a", some (7 : ℚ)), ("b", none)] "id1" "Jordan" "p1" "d1" 5 "n").duration = 20 := by
  have h := finish_spec 1200 [("a", some (7 : ℚ)), ("b", none)] "id1" "Jordan" "p1" "d1" 5 "n"
  exact ⟨by norm_num, h.2.2.1 1 (by norm_num), h.2.2.2⟩

/-- C1: building the store by logging value 10 (`logOld`) and then value 15
(`logNew`) for `(planA, "main")` yields the most-recent-first list
`[logNew, logOld]`; `computeImprovement` reads it in store order, so its
series is `[15, 10]`: the reported `baseline` is the most recent value 15,
not the earliest value 10, and the percent is `(10 - 15)/15 * 100 = -100/3`
— though the page's header comment ("% improvement from first log") and its
UI label ("Improvement since first log") both describe the baseline as the
first log's value. -/
theorem improvement_reads_store_order :
    addLog logNew (addLog logOld []) = [logNew, logOld] ∧
    qualifyingSeries [logNew, logOld] planA "main" = [15, 10] ∧
    computeImprovement [logNew, logOld] planA "main" =
      ⟨some 15, some 10, some (-100 / 3)⟩ ∧
    (computeImprovement [logNew, logOld] planA "main").baseline ≠ some 10 := by
  have hq : qualifyingSeries [logNew, logOld] planA "main" = [15, 10] := by
    simp [qualifyingSeries, myLogs, logOld, logNew, planA, List.find?]
  have hc : computeImprovement [logNew, logOld] planA "main" =
      ⟨some 15, some 10, some (-100 / 3)⟩ := by
    rw [computeImprovement, hq, improvementOfSeries_def]
    norm_num
  refine ⟨by simp [addLog], hq, hc, ?_⟩
  rw [hc]
  norm_num

/-- One unfolding step of `cumulativeAux`. -/
theorem cumulativeAux_cons (acc : ℚ) (b : Block) (bs : List Block) :
    cumulativeAux acc (b :: bs) =
      ⟨b.id, acc * 60, (acc + b.minutes) * 60, b.name, b.intensity⟩ ::
        cumulativeAux (acc + b.minutes) bs := rfl

/-- `totalMinutes` on the empty block list. -/
theorem totalMinutes_nil : totalMinutes [] = 0 := rfl

/-- The minute fold from any starting value. -/
theorem foldl_minutes_eq (bs : List Block) : ∀ a : ℚ,
    bs.foldl (fun x b => x + b.minutes) a = a + totalMinutes bs := by
  induction bs with
  | nil => intro a; simp [totalMinutes]
  | cons b bs ih =>
    intro a
    simp only [totalMinutes, List.foldl_cons]
    rw [ih (a + b.minutes), ih (0 + b.minutes)]
    ring

/-- `totalMinutes` unfolds one block at a time. -/
theorem totalMinutes_cons (b : Block) (bs : List Block) :
    totalMinutes (b :: bs) = b.minutes + totalMinutes bs := by
  rw [totalMinutes, List.foldl_cons, foldl_minutes_eq]
  ring

/-- With non-negative block minutes, the total is non-negative. -/
theorem totalMinutes_nonneg (bs : List Block) (h : ∀ b ∈ bs, 0 ≤ b.minutes) :
    0 ≤ totalMinutes bs := by
  induction bs with
  | nil => rw [totalMinutes_nil]
  | cons b bs ih =>
    rw [totalMinutes_cons]
    have hb := h b (List.mem_cons_self b bs)
    have hr := ih (fun x hx => h x (List.mem_cons_of_mem _ hx))
    linarith

/-- With non-negative block minutes, every cumulative entry starting from
accumulator `acc` has `acc * 60 ≤ start ≤ end ≤ (acc + sum) * 60`. -/
theorem cumulativeAux_bounds (bs : List Block) : ∀ acc : ℚ,
    (∀ b ∈ bs, 0 ≤ b.minutes) →
    ∀ c ∈ cumulativeAux acc bs,
      acc * 60 ≤ c.start ∧ c.start ≤ c.ends ∧ c.ends ≤ (acc + totalMinutes bs) * 60 := by
  induction bs with
  | nil => intro acc _ c hc; simp [cumulativeAux] at hc
  | cons b bs ih =>
    intro acc hnn c hc
    rw [cumulativeAux_cons] at hc
    have hb : 0 ≤ b.minutes := hnn b (List.mem_cons_self b bs)
    have hrest : ∀ x ∈ bs, 0 ≤ x.minutes := fun x hx => hnn x (List.mem_cons_of_mem _ hx)
    have hsum : 0 ≤ totalMinutes bs := totalMinutes_nonneg bs hrest
    rcases List.mem_cons.mp hc with rfl | hc
    · refine ⟨le_rfl, ?_, ?_⟩
      · show acc * 60 ≤ (acc + b.minutes) * 60
        linarith
      · show (acc + b.minutes) * 60 ≤ (acc + totalMinutes (b :: bs)) * 60
        rw [totalMinutes_cons]
        linarith
    · obtain ⟨h1, h2, h3⟩ := ih (acc + b.minutes) hrest c hc
      refine ⟨by linarith, h2, ?_⟩
      rw [totalMinutes_cons]
      have : (acc + b.minutes + totalMinutes bs) * 60 = (acc + (b.minutes + totalMinutes bs)) * 60 := by
        ring
      linarith [this ▸ h3]

/-- The last cumulative entry ends at `(acc + sum of minutes) * 60`. -/
theorem cumulativeAux_getLast_ends (bs : List Block) : ∀ (acc : ℚ) (c : CumEntry),
    (cumulativeAux acc bs).getLast? = some c → c.ends = (acc + totalMinutes bs) * 60 := by
  induction bs with
  | nil => intro acc c hc; simp [cumulativeAux] at hc
  | cons b bs ih =>
    intro acc c hc
    rw [cumulativeAux_cons] at hc
    cases bs with
    | nil =>
      simp only [cumulativeAux, List.getLast?_singleton, Option.some.injEq] at hc
      rw [← hc, totalMinutes_cons, totalMinutes_nil]
      show (acc + b.minutes) * 60 = (acc + (b.minutes + 0)) * 60
      ring
    | cons b2 bs2 =>
      rw [cumulativeAux_cons, List.getLast?_cons_cons, ← cumulativeAux_cons] at hc
      rw [ih (acc + b.minutes) c hc,
        show totalMinutes (b :: b2 :: bs2) = b.minutes + totalMinutes (b2 :: bs2) from
          totalMinutes_cons b (b2 :: bs2)]
      ring

/-- Any elapsed value strictly inside the overall span is contained in the
half-open interval of some cumulative entry. -/
theorem cumulativeAux_covers (e : ℚ) (bs : List Block) : ∀ acc : ℚ,
    acc * 60 ≤ e → e < (acc + totalMinutes bs) * 60 →
    ∃ c ∈ cumulativeAux acc bs, c.start ≤ e ∧ e < c.ends := by
  induction bs with
  | nil =>
    intro acc h1 h2
    rw [totalMinutes_nil] at h2
    exfalso
    have : (acc + 0) * 60 = acc * 60 := by ring
    linarith [this ▸ h2]
  | cons b bs ih =>
    intro acc h1 h2
    by_cases hlt : e < (acc + b.minutes) * 60
    · refine ⟨⟨b.id, acc * 60, (acc + b.minutes) * 60, b.name, b.intensity⟩, ?_, h1, hlt⟩
      rw [cumulativeAux_cons]
      exact List.mem_cons_self _ _
    · push_neg at hlt
      have h2' : e < (acc + b.minutes + totalMinutes bs) * 60 := by
        rw [totalMinutes_cons] at h2
        have : (acc + (b.minutes + totalMinutes bs)) * 60 =
            (acc + b.minutes + totalMinutes bs) * 60 := by ring
        linarith [this ▸ h2]
      obtain ⟨c, hc, hce⟩ := ih (acc + b.minutes) hlt h2'
      refine ⟨c, ?_, hce⟩
      rw [cumulativeAux_cons]
      exact List.mem_cons_of_mem _ hc

/-- With non-negative block minutes the half-open intervals of the
cumulative entries are pairwise disjoint: an elapsed value determines the
containing entry uniquely. -/
theorem cumulativeAux_unique (e : ℚ) (bs : List Block) : ∀ acc : ℚ,
    (∀ b ∈ bs, 0 ≤ b.minutes) →
    ∀ c ∈ cumulativeAux acc bs, ∀ c' ∈ cumulativeAux acc bs,
      c.start ≤ e → e < c.ends → c'.start ≤ e → e < c'.ends → c = c' := by
  induction bs with
  | nil => intro acc _ c hc; simp [cumulativeAux] at hc
  | cons b bs ih =>
    intro acc hnn c hc c' hc' h1 h2 h1' h2'
    rw [cumulativeAux_cons] at hc hc'
    have hrest : ∀ x ∈ bs, 0 ≤ x.minutes := fun x hx => hnn x (List.mem_cons_of_mem _ hx)
    rcases List.mem_cons.mp hc with rfl | hc <;> rcases List.mem_cons.mp hc' with rfl | hc'
    · rfl
    · exfalso
      have hb := (cumulativeAux_bounds bs (acc + b.minutes) hrest c' hc').1
      have h2h : e < (acc + b.minutes) * 60 := h2
      linarith
    · exfalso
      have hb := (cumulativeAux_bounds bs (acc + b.minutes) hrest c hc).1
      have h2h : e < (acc + b.minutes) * 60 := h2'
      linarith
    · exact ih (acc + b.minutes) hrest c hc c' hc' h1 h2 h1' h2'

/-- Zipped with the block list, each cumulative entry carries its block's id
and spans exactly `minutes * 60` seconds from its start. -/
theorem cumulativeAux_zip (bs : List Block) : ∀ acc : ℚ,
    ∀ p ∈ (cumulativeAux acc bs).zip bs,
      p.1.id = p.2.id ∧ p.1.ends = p.1.start + p.2.minutes * 60 := by
  induction bs with
  | nil => intro acc p hp; simp [cumulativeAux] at hp
  | cons b bs ih =>
    intro acc p hp
    rw [cumulativeAux_cons, List.zip_cons_cons] at hp
    rcases List.mem_cons.mp hp with rfl | hp
    · refine ⟨rfl, ?_⟩
      show (acc + b.minutes) * 60 = acc * 60 + b.minutes * 60
      ring
    · exact ih (acc + b.minutes) p hp

/-- C4: segments are laid out as consecutive half-open intervals
`[cumulativeStart, cumulativeStart + minutes * 60)` in declaration order;
for elapsed values in `[0, totalSec]` with a non-empty plan of non-negative
durations, `current` returns the (unique, hence first) entry whose interval
contains the elapsed value, such an entry exists whenever
`elapsed < totalSec`, and once the elapsed value reaches the final
interval's end `current` is the last entry; an empty plan yields no entry;
and the spec's concrete example: at 1500 s of the 10/30/5-minute plan the
second segment (interval `[600, 2400)`) is current and `percent` is 56. -/
theorem currentSegment_spec (blocks : List Block) (e : ℚ)
    (hne : blocks ≠ []) (hnn : ∀ b ∈ blocks, 0 ≤ b.minutes)
    (h0 : 0 ≤ e) (h1 : e ≤ totalSec blocks) :
    (∀ p ∈ (cumulative blocks).zip blocks,
        p.1.id = p.2.id ∧ p.1.ends = p.1.start + p.2.minutes * 60) ∧
    (∀ c ∈ cumulative blocks, c.start ≤ e → e < c.ends → current blocks e = some c) ∧
    (e < totalSec blocks → ∃ c ∈ cumulative blocks, c.start ≤ e ∧ e < c.ends) ∧
    (∀ cl, (cumulative blocks).getLast? = some cl → cl.ends ≤ e →
      current blocks e = some cl) ∧
    (∀ x : ℚ, current [] x = none) ∧
    current exampleBlocks 1500 = some ⟨"main", 600, 2400, "Main Set", .moderate⟩ ∧
    percent 1500 (totalSec exampleBlocks) = some 56 := by
  have htot : (0 + totalMinutes blocks) * 60 = totalSec blocks := by
    rw [totalSec]
    ring
  refine ⟨cumulativeAux_zip blocks 0, ?_, ?_, ?_, fun x => rfl, ?_, ?_⟩
  · intro c hc hs he
    cases hfd : (cumulative blocks).find? (fun c => decide (c.start ≤ e ∧ e < c.ends)) with
    | none =>
      exfalso
      have hnone := List.find?_eq_none.mp hfd c hc
      simp only [decide_eq_true_eq] at hnone
      exact hnone ⟨hs, he⟩
    | some c2 =>
      have hp2 := List.find?_some hfd
      have hm2 := List.mem_of_find?_eq_some hfd
      simp only [decide_eq_true_eq] at hp2
      have hcc : c2 = c :=
        cumulativeAux_unique e blocks 0 hnn c2 hm2 c hc hp2.1 hp2.2 hs he
      simp only [current]
      rw [hfd]
      exact congrArg some hcc
  · intro hlt
    refine cumulativeAux_covers e blocks 0 (by linarith) ?_
    rw [htot]
    exact hlt
  · intro cl hlast hle
    have hclT : cl.ends = totalSec blocks := by
      rw [cumulativeAux_getLast_ends blocks 0 cl hlast, htot]
    have hfd : (cumulative blocks).find? (fun c => decide (c.start ≤ e ∧ e < c.ends)) = none := by
      rw [List.find?_eq_none]
      intro x hx
      simp only [decide_eq_true_eq]
      rintro ⟨hxs, hxe⟩
      have hb := (cumulativeAux_bounds blocks 0 hnn x hx).2.2
      rw [htot] at hb
      rw [hclT] at hle
      linarith
    simp only [current]
    rw [hfd]
    exact hlast
  · norm_num [current, cumulative, cumulativeAux, exampleBlocks, List.find?]
  · have he : totalSec exampleBlocks = 2700 := by
      norm_num [totalSec, totalMinutes, exampleBlocks]
    rw [he, percent, if_neg (by norm_num)]
    norm_num [round_eq]

/-- Witness for `currentSegment_spec` on the 10/30/5-minute example plan at
elapsed 1500 s. -/
theorem currentSegment_spec_witness :
    (exampleBlocks ≠ [] ∧ (∀ b ∈ exampleBlocks, 0 ≤ b.minutes) ∧
        (0 : ℚ) ≤ 1500 ∧ (1500 : ℚ) ≤ totalSec exampleBlocks) ∧
      current exampleBlocks 1500 = some ⟨"main", 600, 2400, "Main Set", .moderate⟩ ∧
      percent 1500 (totalSec exampleBlocks) = some 56 := by
  have hne : exampleBlocks ≠ [] := by simp [exampleBlocks]
  have hnn : ∀ b ∈ exampleBlocks, 0 ≤ b.minutes := by
    intro b hb
    simp only [exampleBlocks, List.mem_cons, List.not_mem_nil, or_false] at hb
    rcases hb with rfl | rfl | rfl <;> norm_num
  have h1 : (1500 : ℚ) ≤ totalSec exampleBlocks := by
    norm_num [totalSec, totalMinutes, exampleBlocks]
  have hs := currentSegment_spec exampleBlocks 1500 hne hnn (by norm_num) h1
  exact ⟨⟨hne, hnn, by norm_num, h1⟩, hs.2.2.2.2.2.1, hs.2.2.2.2.2.2⟩

/-- C10: whenever `current` returns a zero-duration entry (its interval
`[start, start)` is empty), no entry's half-open interval contains the
elapsed value — the `find` failed — and the returned entry is the last one,
produced only by the last-element fallback. -/
theorem current_zero_duration (blocks : List Block) (e : ℚ) (c : CumEntry)
    (h : current blocks e = some c) (hz : c.ends = c.start) :
    (cumulative blocks).getLast? = some c ∧
      ∀ c' ∈ cumulative blocks, ¬(c'.start ≤ e ∧ e < c'.ends) := by
  simp only [current] at h
  cases hfd : (cumulative blocks).find? (fun c => decide (c.start ≤ e ∧ e < c.ends)) with
  | some c2 =>
    rw [hfd] at h
    have h2 : some c2 = some c := h
    have hcc : c2 = c := Option.some.inj h2
    have hp := List.find?_some hfd
    simp only [decide_eq_true_eq] at hp
    exfalso
    rw [hcc] at hp
    rw [hz] at hp
    linarith [hp.1, hp.2]
  | none =>
    rw [hfd] at h
    refine ⟨h, ?_⟩
    intro c' hc'
    have hn := List.find?_eq_none.mp hfd c' hc'
    simpa only [decide_eq_true_eq] using hn

/-- Witness for `current_zero_duration`: a 10-minute block followed by a
zero-duration block, elapsed exactly 600 s. -/
theorem current_zero_duration_witness :
    current blocksWithZeroTail 600 = some ⟨"bz", 600, 600, "Zero", .low⟩ ∧
      ((cumulative blocksWithZeroTail).getLast? = some ⟨"bz", 600, 600, "Zero", .low⟩ ∧
        ∀ c' ∈ cumulative blocksWithZeroTail, ¬(c'.start ≤ 600 ∧ (600 : ℚ) < c'.ends)) := by
  have hcur : current blocksWithZeroTail 600 = some ⟨"bz", 600, 600, "Zero", .low⟩ := by
    norm_num [current, cumulative, cumulativeAux, blocksWithZeroTail, List.find?]
  exact ⟨hcur, current_zero_duration blocksWithZeroTail 600 _ hcur rfl⟩
